import Mathlib

/-!
Verification of the escalation daemon (`escalation_service.py`), the control
CLI (`escalation_ctl.py`) and the notifier adapter against the repository's
specification.

Modelling conventions.
* Wall-clock time (`time.time()`) is a rational number passed explicitly to
  every operation that reads the clock.
* Python object identity for `ScheduledEvent` is modelled by a token
  (`Nat`): the scheduler state carries a mutable store `Nat → ScheduledEvent`
  and a fresh-token counter, mirroring the fact that `cancel` mutates the
  `cancelled` flag of objects shared between the heap and `events_by_id`.
* `heapq` is modelled by its contract: a bag of tokens with push (append)
  and pop-minimum by `fire_time`; ties resolve to the earliest pushed
  element (the concrete tie order of `heapq` is unspecified and no claim
  depends on it).
* Python `dict` (insertion ordered) is modelled by an association list:
  assignment replaces in place or appends, deletion removes the entry.
-/

/-- Source line 46: `PRIORITIES = {60: 0, 3600: 2}` consulted with
`PRIORITIES.get(delay, 0)` (line 86). -/
def PRIORITIES (delay : Int) : Int :=
  if delay = 60 then 0 else if delay = 3600 then 2 else 0

/-- Source lines 53-60: the `ScheduledEvent` dataclass.  Ordering compares
`fire_time` only (all other fields are `compare=False`). -/
structure ScheduledEvent where
  fire_time : ℚ
  escalation_id : String
  message : String
  priority : Int
  cancelled : Bool
deriving DecidableEq, Repr

/-- State owned by `EscalationScheduler` (source lines 63-74): the heap of
events, the `events_by_id` index, plus the token store and fresh counter that
model Python object identity. -/
structure SchedState where
  store : Nat → ScheduledEvent
  heap : List Nat
  events_by_id : List (String × List Nat)
  nextTok : Nat

/-- Python `dict` lookup on an insertion-ordered association list. -/
def lookupAssoc {β : Type} : List (String × β) → String → Option β
  | [], _ => none
  | (k, v) :: rest, key => if k = key then some v else lookupAssoc rest key

/-- Python `del d[key]` on an association list whose keys are unique. -/
def eraseKey {β : Type} (l : List (String × β)) (key : String) : List (String × β) :=
  l.filter (fun p => p.1 != key)

/-- Python `d[key] = v`: replace in place when present, append when absent. -/
def insertAssoc {β : Type} : List (String × β) → String → β → List (String × β)
  | [], key, v => [(key, v)]
  | (k, w) :: rest, key, v =>
      if k = key then (key, v) :: rest else (k, w) :: insertAssoc rest key v

/-- The event built by `EscalationScheduler.add` for one delay
(source lines 85-92). -/
def mkEvent (now : ℚ) (escalation_id message : String) (delay : Int) : ScheduledEvent :=
  { fire_time := now + delay
    escalation_id := escalation_id
    message := message
    priority := PRIORITIES delay
    cancelled := false }

/-- `EscalationScheduler._cancel_internal` (source lines 104-111): flag every
event of the group `cancelled`, drop the index entry, report whether a group
existed. -/
def cancelInternal (s : SchedState) (escalation_id : String) : SchedState × Bool :=
  match lookupAssoc s.events_by_id escalation_id with
  | some toks =>
      ({ s with
          store := fun t => if t ∈ toks then { s.store t with cancelled := true } else s.store t
          events_by_id := eraseKey s.events_by_id escalation_id }, true)
  | none => (s, false)

/-- The event-creation loop of `EscalationScheduler.add` (source lines 84-94):
for each delay push a fresh event onto the heap; returns the new state and the
`events` list accumulated for the index. -/
def addEvents (now : ℚ) (escalation_id message : String) :
    List Int → SchedState → SchedState × List Nat
  | [], s => (s, [])
  | d :: ds, s =>
      let tok := s.nextTok
      let e := mkEvent now escalation_id message d
      let s1 : SchedState :=
        { s with
            store := Function.update s.store tok e
            heap := s.heap ++ [tok]
            nextTok := tok + 1 }
      let r := addEvents now escalation_id message ds s1
      (r.1, tok :: r.2)

/-- `EscalationScheduler.add` (source lines 76-97): cancel any existing group,
create one event per delay, install the new group in the index. -/
def schedAdd (s : SchedState) (now : ℚ) (escalation_id message : String)
    (delays : List Int) : SchedState :=
  let s1 := (cancelInternal s escalation_id).1
  let r := addEvents now escalation_id message delays s1
  { r.1 with events_by_id := insertAssoc r.1.events_by_id escalation_id r.2 }

/-- `EscalationScheduler.cancel` (source lines 99-102). -/
def schedCancel (s : SchedState) (escalation_id : String) : SchedState × Bool :=
  cancelInternal s escalation_id

/-- Minimum of a nonempty collection, seeded with its first element:
Python `min(e.fire_time for e in active_events)` (source line 123). -/
def listMinQ : ℚ → List ℚ → ℚ
  | q, [] => q
  | q, x :: xs => listMinQ (min q x) xs

/-- One summary record of `EscalationScheduler.status` (source lines 119-129):
events still live (not cancelled and still in the heap) are counted; `none`
when no event of the group is live. -/
def entrySummary (s : SchedState) (now : ℚ) (p : String × List Nat) :
    Option (String × String × Nat × ℚ) :=
  let active := p.2.filter (fun t => !(s.store t).cancelled && s.heap.contains t)
  match active with
  | [] => none
  | t0 :: rest =>
      some (p.1, (s.store t0).message, (t0 :: rest).length,
        max 0 (listMinQ (s.store t0).fire_time
          (rest.map (fun t => (s.store t).fire_time)) - now))

/-- `EscalationScheduler.status` (source lines 113-130): one record per group
with a live event, in `events_by_id` iteration order.  A record is
`(escalation_id, message, pending_count, next_fire_in)`. -/
def statusList (s : SchedState) (now : ℚ) : List (String × String × Nat × ℚ) :=
  s.events_by_id.filterMap (entrySummary s now)

/-- Token of the minimum-`fire_time` element of the heap (the element
`heapq.heappop` would remove); ties resolve to the earliest pushed. -/
def heapTop (f : Nat → ScheduledEvent) : List Nat → Option Nat
  | [] => none
  | t :: rest =>
      match heapTop f rest with
      | none => some t
      | some u => if (f t).fire_time ≤ (f u).fire_time then some t else some u

/-- The lazy-reclamation loop `while self.heap and self.heap[0].cancelled:
heapq.heappop(self.heap)` (source lines 158-159); fuelled by the heap length,
which bounds the number of pops. -/
def popCancelledAux (f : Nat → ScheduledEvent) : Nat → List Nat → List Nat
  | 0, h => h
  | fuel + 1, h =>
      match heapTop f h with
      | none => h
      | some t => if (f t).cancelled then popCancelledAux f fuel (h.erase t) else h

/-- State after the cancelled-top reclamation loop. -/
def popCancelledTops (s : SchedState) : SchedState :=
  { s with heap := popCancelledAux s.store s.heap.length s.heap }

/-- `EscalationScheduler._cleanup_fired_events` (source lines 139-148): drop
the index entry once every event of the group is cancelled or out of the
heap. -/
def cleanupFiredEvents (s : SchedState) (escalation_id : String) : SchedState :=
  match lookupAssoc s.events_by_id escalation_id with
  | some toks =>
      if toks.all (fun t => (s.store t).cancelled || !s.heap.contains t) then
        { s with events_by_id := eraseKey s.events_by_id escalation_id }
      else s
  | none => s

/-- Observable outcome of one iteration of the scheduler loop. -/
inductive StepResult where
  | waited : StepResult
  | skippedCancelled (tok : Nat) : StepResult
  | fired (tok : Nat) (escalation_id message : String) (priority : Int) : StepResult
deriving DecidableEq, Repr

/-- One iteration of `EscalationScheduler._run` (source lines 152-187) at
clock value `now`: reclaim cancelled tops; if the heap is empty or the top is
not yet due, wait; otherwise pop the top, clean up the index, and fire the
notifier callback iff the popped event's `cancelled` flag is unset at the
post-pop check (source line 182). -/
def runStep (s : SchedState) (now : ℚ) : SchedState × StepResult :=
  let s1 := popCancelledTops s
  match heapTop s1.store s1.heap with
  | none => (s1, .waited)
  | some tok =>
      let e := s1.store tok
      if 0 < e.fire_time - now then (s1, .waited)
      else
        let s2 : SchedState := { s1 with heap := s1.heap.erase tok }
        let s3 := cleanupFiredEvents s2 e.escalation_id
        if e.cancelled then (s3, .skippedCancelled tok)
        else (s3, .fired tok e.escalation_id e.message e.priority)

/-- A run of the scheduler loop at the given sequence of clock readings. -/
def runTrace (s : SchedState) : List ℚ → List StepResult
  | [] => []
  | t :: ts =>
      let r := runStep s t
      r.2 :: runTrace r.1 ts

/-- Does this step fire the event with the given token? -/
def firesTok (r : StepResult) (tok : Nat) : Bool :=
  match r with
  | .fired t _ _ _ => t = tok
  | _ => false

/-- Structural well-formedness of a scheduler state: every token in the heap
or the index is below the fresh counter, and the heap holds no duplicate
tokens (each Python event object sits in the heap at most once). -/
def WF (s : SchedState) : Prop :=
  (∀ t ∈ s.heap, t < s.nextTok) ∧
  (∀ p ∈ s.events_by_id, ∀ t ∈ p.2, t < s.nextTok) ∧
  s.heap.Nodup

/-- The scheduler state right after `EscalationScheduler.__init__`. -/
def initSched : SchedState :=
  { store := fun _ => { fire_time := 0, escalation_id := "", message := "", priority := 0, cancelled := false }
    heap := []
    events_by_id := []
    nextTok := 0 }

/-- Command line assembled by `EscalationService._send_notification`
(source lines 338-345) for the notifier binary. -/
structure NotifyCmd where
  title : String
  message : String
  priority : Int
  retryExpire : Option (Int × Int)
deriving DecidableEq, Repr

/-- `EscalationService._send_notification` (source lines 329-359): when the
busy probe reports busy the notification is skipped, otherwise the notifier
is invoked with the title selected by priority, the message as given, and
`--retry 60 --expire 3600` exactly when `priority == 2`.  The result of
`_is_session_busy` is an input of the model. -/
def sendNotification (busy : Bool) (message : String) (priority : Int) :
    Option NotifyCmd :=
  if busy then none
  else
    some
      { title := if priority < 2 then "Claude Permission" else "Claude Permission (1hr)"
        message := message
        priority := priority
        retryExpire := if priority = 2 then some (60, 3600) else none }

/-- Outcome of the `os.kill(pid, 0)` probe.  Both failure kinds are
subclasses of `OSError` in Python. -/
inductive KillOutcome where
  | success : KillOutcome
  | errNoSuchProcess : KillOutcome
  | errPermissionDenied : KillOutcome
deriving DecidableEq, Repr

/-- `EscalationService._is_pid_alive` (source lines 228-234): `True` when the
signal-0 probe succeeds, `False` on any `OSError`. -/
def isPidAlive : KillOutcome → Bool
  | .success => true
  | .errNoSuchProcess => false
  | .errPermissionDenied => false

/-- The service's reply to a `cancel` RPC as read by the CLI. -/
structure CancelReply where
  status : String
  cancelled : Bool
deriving DecidableEq, Repr

/-- `cmd_cancel` of `escalation_ctl.py` (source lines 171-186): exit 1 when
the service is down; otherwise exit 0 whenever the reply has `status == "ok"`
(regardless of the `cancelled` field), else exit 1. -/
def cmdCancel (running : Bool) (result : Option CancelReply) : Int :=
  if !running then 1
  else
    match result with
    | some r => if r.status = "ok" then 0 else 1
    | none => 1

/-- A message 1025 characters long, used to exercise the absence of
truncation in the notifier adapter. -/
def longMsg : String := String.mk (List.replicate 1025 'a')

/-- The consecutive tokens `[b, b+1, ..., b+n-1]` handed out by `addEvents`. -/
def tokRange : Nat → Nat → List Nat
  | _, 0 => []
  | b, n + 1 => b :: tokRange (b + 1) n

/-- Python values as decoded from JSON payloads and produced by the RPC
handlers. -/
inductive PyObj where
  | pyNone : PyObj
  | pyBool (b : Bool) : PyObj
  | pyInt (n : Int) : PyObj
  | pyRat (q : ℚ) : PyObj
  | pyStr (s : String) : PyObj
  | pyList (xs : List PyObj) : PyObj
  | pyDict (xs : List (String × PyObj)) : PyObj

/-- Python truthiness (`if msg:`): `None`, `0`, the empty string, the empty
list and the empty dict are falsy. -/
def pyTruthy : PyObj → Bool
  | .pyNone => false
  | .pyBool b => b
  | .pyInt n => n != 0
  | .pyRat q => q != 0
  | .pyStr s => s != ""
  | .pyList xs => !xs.isEmpty
  | .pyDict xs => !xs.isEmpty

/-- Big-endian `uint32` read of a 4-byte prefix (`struct.unpack("!I", ·)`,
source line 379). -/
def beUInt32 : List Nat → Nat
  | [a, b, c, d] => ((a * 256 + b) * 256 + c) * 256 + d
  | _ => 0

/-- `EscalationService._recv_exact` (source lines 361-369): exactly `n` bytes
of the stream, or `none` when the stream ends early. -/
def recvExact (data : List Nat) (n : Nat) : Option (List Nat) :=
  if n ≤ data.length then some (data.take n) else none

/-- The framing part of `EscalationService._recv_message` (source lines
371-390): 4-byte big-endian length, rejected above 1 MiB, then exactly that
many payload bytes. -/
def recvMessageBytes (data : List Nat) : Option (List Nat) :=
  match recvExact data 4 with
  | none => none
  | some lenBytes =>
      let len := beUInt32 lenBytes
      if 1024 * 1024 < len then none
      else recvExact (data.drop 4) len

/-- Skip JSON whitespace bytes. -/
def skipWs : List Nat → List Nat
  | [] => []
  | b :: rest => if b = 32 ∨ b = 9 ∨ b = 10 ∨ b = 13 then skipWs rest else b :: rest

/-- Scan a JSON string body up to the closing quote.  Restricted to printable
ASCII without escapes, which covers every payload these claims exercise. -/
def scanStr : List Nat → Option (String × List Nat)
  | [] => none
  | b :: rest =>
      if b = 34 then some ("", rest)
      else if b < 32 ∨ b = 92 ∨ 127 ≤ b then none
      else
        match scanStr rest with
        | some (s, r) => some (String.mk (Char.ofNat b :: s.data), r)
        | none => none

/-- Members of a JSON object after the opening brace, restricted to string
values; fuelled by the input length, which bounds the member count. -/
def objMembersAux : Nat → List Nat → Option (List (String × PyObj) × List Nat)
  | 0, _ => none
  | fuel + 1, input =>
      match skipWs input with
      | 34 :: r0 =>
          match scanStr r0 with
          | none => none
          | some (key, r1) =>
              match skipWs r1 with
              | 58 :: r2 =>
                  match skipWs r2 with
                  | 34 :: r3 =>
                      match scanStr r3 with
                      | none => none
                      | some (v, r4) =>
                          match skipWs r4 with
                          | 44 :: r5 =>
                              match objMembersAux fuel r5 with
                              | some (ms, r6) => some ((key, PyObj.pyStr v) :: ms, r6)
                              | none => none
                          | 125 :: r5 => some ([(key, PyObj.pyStr v)], r5)
                          | _ => none
                  | _ => none
              | _ => none
      | _ => none

/-- Model of the Python standard library `json.loads` on UTF-8 bytes,
restricted to flat JSON objects with string keys and string values -- the
only JSON values the claims exercise.  Anything else is treated as
undecodable. -/
def jsonLoads (bytes : List Nat) : Option PyObj :=
  match skipWs bytes with
  | 123 :: r =>
      match skipWs r with
      | 125 :: r2 => if skipWs r2 = [] then some (.pyDict []) else none
      | r1 =>
          match objMembersAux bytes.length r1 with
          | some (ms, rest) => if skipWs rest = [] then some (.pyDict ms) else none
          | none => none
  | _ => none

/-- One record of the session registry (source lines 199-200 and 443-447). -/
structure SessionInfo where
  pid : Option Int
  registered_at : ℚ
deriving DecidableEq, Repr

/-- State owned by `EscalationService`: the scheduler, the PID-tracked
session registry, and the `running` flag. -/
structure ServiceState where
  sched : SchedState
  sessions : List (String × SessionInfo)
  running : Bool

/-- The service state right after startup, before any request. -/
def initService : ServiceState :=
  { sched := initSched, sessions := [], running := true }

/-- Source line 45: `DEFAULT_DELAYS = [60, 3600]`. -/
def DEFAULT_DELAYS : List Int := [60, 3600]

/-- Coerce a Python value to a string; non-strings are modelled as handler
type errors (the daemon would raise inside `_handle_command`, and
`_handle_client` then sends no reply). -/
def asStr : PyObj → Option String
  | .pyStr s => some s
  | _ => none

/-- Coerce a Python value to a list of integers (the `delays` argument). -/
def asIntList : PyObj → Option (List Int)
  | .pyList xs =>
      xs.foldr
        (fun x acc =>
          match x, acc with
          | .pyInt n, some l => some (n :: l)
          | _, _ => none)
        (some [])
  | _ => none

/-- Python `min(sessions.items(), key=lambda x: x[1].get("registered_at", 0))`
(source line 460): the earliest-registered session, ties broken by insertion
order. -/
def oldestSession : List (String × SessionInfo) → Option (String × SessionInfo)
  | [] => none
  | p :: rest =>
      match oldestSession rest with
      | none => some p
      | some q => if p.2.registered_at ≤ q.2.registered_at then some p else some q

/-- The `pending` field of the `status` reply (source lines 422-423). -/
def pendingToPy (l : List (String × String × Nat × ℚ)) : PyObj :=
  .pyList (l.map (fun r =>
    .pyDict
      [("escalation_id", .pyStr r.1), ("message", .pyStr r.2.1),
       ("pending_count", .pyInt r.2.2.1), ("next_fire_in", .pyRat r.2.2.2)]))

/-- Removal decision of the `unregister_session` branch (source lines
455-462): a truthy and *present* `session_id` is removed; otherwise, whenever
the registry is nonempty, the oldest session is removed -- also when a
`session_id` was supplied but is unknown. -/
def unregisterStep (sessions : List (String × SessionInfo)) (sidObj : PyObj) :
    List (String × SessionInfo) × PyObj :=
  match sidObj with
  | .pyStr s =>
      if s ≠ "" ∧ (lookupAssoc sessions s).isSome then (eraseKey sessions s, .pyStr s)
      else
        match oldestSession sessions with
        | some old => (eraseKey sessions old.1, .pyStr old.1)
        | none => (sessions, .pyStr s)
  | other =>
      match oldestSession sessions with
      | some old => (eraseKey sessions old.1, .pyStr old.1)
      | none => (sessions, other)

/-- `EscalationService._handle_command` (source lines 402-479) at clock value
`now`.  Returns the reply object (always a dict in the source) and the next
service state, or `none` when the handler raises (modelled for arguments
whose Python type the handler cannot process). -/
def handleCommand (st : ServiceState) (now : ℚ) (cmd : List (String × PyObj)) :
    Option (List (String × PyObj) × ServiceState) :=
  match (lookupAssoc cmd "command").getD (.pyStr "") with
  | .pyStr c =>
      if c = "add" then
        let eidObj0 := (lookupAssoc cmd "escalation_id").getD .pyNone
        let eidObj := if pyTruthy eidObj0 then eidObj0
                      else (lookupAssoc cmd "session_id").getD (.pyStr "unknown")
        let msgObj := (lookupAssoc cmd "message").getD (.pyStr "Awaiting permission")
        let delaysObj := (lookupAssoc cmd "delays").getD (.pyList (DEFAULT_DELAYS.map .pyInt))
        match asStr eidObj, asStr msgObj, asIntList delaysObj with
        | some eid, some msg, some ds =>
            some ([("status", .pyStr "ok"), ("escalation_id", .pyStr eid)],
              { st with sched := schedAdd st.sched now eid msg ds })
        | _, _, _ => none
      else if c = "cancel" then
        let eidObj0 := (lookupAssoc cmd "escalation_id").getD .pyNone
        let eidObj := if pyTruthy eidObj0 then eidObj0
                      else (lookupAssoc cmd "session_id").getD (.pyStr "")
        match asStr eidObj with
        | some eid =>
            let r := schedCancel st.sched eid
            some ([("status", .pyStr "ok"), ("cancelled", .pyBool r.2)],
              { st with sched := r.1 })
        | none => none
      else if c = "status" then
        let sessionsInfo := st.sessions.map (fun p =>
          (p.1, PyObj.pyDict
            [("pid", match p.2.pid with | some n => .pyInt n | none => .pyNone),
             ("registered_at", .pyRat p.2.registered_at),
             ("age", .pyRat (now - p.2.registered_at))]))
        some ([("status", .pyStr "ok"),
               ("pending", pendingToPy (statusList st.sched now)),
               ("session_count", .pyInt st.sessions.length),
               ("sessions", .pyDict sessionsInfo)], st)
      else if c = "register_session" then
        let sidObj := (lookupAssoc cmd "session_id").getD (.pyStr ("session-" ++ toString now))
        let pid : Option Int :=
          match lookupAssoc cmd "pid" with
          | some (.pyInt n) => some n
          | _ => none
        match asStr sidObj with
        | some sid =>
            let sessions := insertAssoc st.sessions sid { pid := pid, registered_at := now }
            some ([("status", .pyStr "ok"), ("session_id", .pyStr sid),
                   ("session_count", .pyInt sessions.length)],
              { st with sessions := sessions })
        | none => none
      else if c = "unregister_session" then
        let sidObj := (lookupAssoc cmd "session_id").getD .pyNone
        let r := unregisterStep st.sessions sidObj
        let count := r.1.length
        some ([("status", .pyStr "ok"), ("session_id", r.2),
               ("session_count", .pyInt count),
               ("shutting_down", .pyBool (count == 0))],
          { st with sessions := r.1, running := if count = 0 then false else st.running })
      else if c = "shutdown" then
        some ([("status", .pyStr "ok"), ("message", .pyStr "shutting down")],
          { st with running := false })
      else
        some ([("status", .pyStr "error"), ("message", .pyStr ("unknown command: " ++ c))], st)
  | _ => some ([("status", .pyStr "error"), ("message", .pyStr "unknown command: <non-string>")], st)

/-- `EscalationService._handle_client` (source lines 481-494): decode one
framed message; the reply is produced only when the decoded value is truthy
(`if msg:`, source line 486) -- so `None` (framing error), the empty dict,
and handler exceptions all yield no reply before the connection closes.
Non-dict truthy values raise inside `_handle_command` and also yield no
reply. -/
def handleClientResult (st : ServiceState) (now : ℚ) (data : List Nat) :
    Option (List (String × PyObj) × ServiceState) :=
  match recvMessageBytes data with
  | none => none
  | some payload =>
      match jsonLoads payload with
      | none => none
      | some msg =>
          if pyTruthy msg then
            match msg with
            | .pyDict d => handleCommand st now d
            | _ => none
          else none

/-- A well-formed request in the sense of claim C3: a 4-byte big-endian
length prefixed frame of at most 1 MiB whose payload is a JSON object. -/
def wellFormedRequest (data : List Nat) : Prop :=
  4 ≤ data.length ∧
  beUInt32 (data.take 4) = data.length - 4 ∧
  beUInt32 (data.take 4) ≤ 1024 * 1024 ∧
  (jsonLoads (data.drop 4)).isSome = true

/-- The wire bytes of a request carrying the empty JSON object: length
prefix 2 followed by the bytes of the two-character payload. -/
def emptyObjRequest : List Nat := [0, 0, 0, 2, 123, 125]

/-- Registry with one session, used to exhibit the unregister fallback. -/
def oneSessionService : ServiceState :=
  { sched := initSched
    sessions := [("s1", { pid := some 42, registered_at := 10 })]
    running := true }

/-- An `unregister_session` request whose `session_id` is not registered. -/
def unknownUnregisterCmd : List (String × PyObj) :=
  [("command", .pyStr "unregister_session"), ("session_id", .pyStr "nope")]

/-- Python `min` over a nonempty list of integers. -/
def intMin : List Int → Int
  | [] => 0
  | d :: ds => ds.foldl min d

/-- The status record a fresh group of delays produces: all events pending,
the next fire at the smallest delay, clamped at zero. -/
def newGroupSummary (now now2 : ℚ) (id m : String) :
    List Int → Option (String × String × Nat × ℚ)
  | [] => none
  | d :: ds =>
      some (id, m, ds.length + 1,
        max 0 (listMinQ (now + d) (ds.map (fun x : Int => now + x)) - now2))

/-- C8 counterexample. The claim states that a permission-denied probe result
is treated as alive; the code's `except OSError: return False` treats it as
dead. -/
theorem isPidAlive_permissionDenied_false :
    isPidAlive KillOutcome.errPermissionDenied = false := rfl

/-- C8 (amended): `alive(pid)` returns true iff the signal-0 probe succeeds;
every `OSError`, permission-denied included, yields false. -/
theorem isPidAlive_iff_success (o : KillOutcome) :
    isPidAlive o = true ↔ o = KillOutcome.success := by
  cases o <;> simp [isPidAlive]

/-- C9 counterexample. When the service replies `status: ok` with
`cancelled: false` (id not found), `cmd_cancel` exits 0, not 1 as the claim
states. -/
theorem cmdCancel_not_found_exits_zero :
    cmdCancel true (some { status := "ok", cancelled := false }) = 0 ∧
      cmdCancel true (some { status := "ok", cancelled := false }) ≠ 1 := by
  constructor <;> decide

/-- C9 (amended): the cancel command exits 0 exactly when the service is
running and replied with `status == "ok"`; the `cancelled` field does not
influence the exit code.  All other situations exit 1. -/
theorem cmdCancel_exit_characterisation (running : Bool) (result : Option CancelReply) :
    cmdCancel running result = 0 ↔
      running = true ∧ ∃ r, result = some r ∧ r.status = "ok" := by
  cases running with
  | false => cases result <;> simp [cmdCancel]
  | true =>
    cases result with
    | none => simp [cmdCancel]
    | some r => by_cases h : r.status = "ok" <;> simp [cmdCancel, h]

/-- C6 counterexample. A 1025-character message is dispatched whole: the
adapter performs no truncation to 1024 characters. -/
theorem sendNotification_no_truncation :
    (sendNotification false longMsg 0).map NotifyCmd.message = some longMsg ∧
      ¬ longMsg.length ≤ 1024 := by
  constructor
  · rfl
  · have h1 : longMsg.length = (List.replicate 1025 'a').length := rfl
    rw [List.length_replicate] at h1
    omega

/-- C6 (amended): a fired event that is not busy-suppressed is dispatched
with the message exactly as stored (no truncation), title "Claude
Permission" for priority below 2 and "Claude Permission (1hr)" for
priority 2, and `retry=60`/`expire=3600` passed exactly when the priority
is 2; a busy-suppressed event dispatches nothing. -/
theorem sendNotification_spec (message : String) (priority : Int) (c : NotifyCmd)
    (h : sendNotification false message priority = some c) :
    c.message = message ∧
      (priority < 2 → c.title = "Claude Permission") ∧
      (priority = 2 → c.title = "Claude Permission (1hr)" ∧ c.retryExpire = some (60, 3600)) ∧
      (priority ≠ 2 → c.retryExpire = none) ∧
      sendNotification true message priority = none := by
  have h0 : sendNotification false message priority =
      some
        { title := if priority < 2 then "Claude Permission" else "Claude Permission (1hr)"
          message := message
          priority := priority
          retryExpire := if priority = 2 then some (60, 3600) else none } := rfl
  rw [h0] at h
  injection h with h
  subst h
  refine ⟨rfl, ?_, ?_, ?_, rfl⟩
  · intro hlt
    have : (priority < 2) = True := by simp [hlt]
    simp [hlt]
  · intro h2
    subst h2
    constructor
    · norm_num
    · norm_num
  · intro h2
    simp [h2]

/-- Witness for `sendNotification_spec` at a concrete priority-2 input. -/
theorem sendNotification_spec_witness :
    ((sendNotification false "msg" 2).map NotifyCmd.message = some "msg") ∧
      (∀ c, sendNotification false "msg" 2 = some c →
        c.title = "Claude Permission (1hr)" ∧ c.retryExpire = some (60, 3600)) := by
  refine ⟨rfl, fun c hc => ?_⟩
  exact (sendNotification_spec "msg" 2 c hc).2.2.1 rfl

/-- Lookup misses exactly when no entry carries the key. -/
theorem lookupAssoc_eq_none_iff {β : Type} (l : List (String × β)) (key : String) :
    lookupAssoc l key = none ↔ ∀ p ∈ l, p.1 ≠ key := by
  induction l with
  | nil => simp [lookupAssoc]
  | cons p rest ih =>
      obtain ⟨k, v⟩ := p
      by_cases h : k = key
      · subst h; simp [lookupAssoc]
      · simp [lookupAssoc, h, ih]

/-- Membership in an erased association list. -/
theorem mem_eraseKey {β : Type} (l : List (String × β)) (key : String) (p : String × β) :
    p ∈ eraseKey l key ↔ p ∈ l ∧ p.1 ≠ key := by
  simp [eraseKey, List.mem_filter, bne_iff_ne]

/-- Erasing an absent key is the identity. -/
theorem eraseKey_of_lookup_none {β : Type} (l : List (String × β)) (key : String)
    (h : lookupAssoc l key = none) : eraseKey l key = l := by
  rw [lookupAssoc_eq_none_iff] at h
  exact List.filter_eq_self.mpr (fun p hp => by simpa [bne_iff_ne] using h p hp)

/-- Erasure distributes over append. -/
theorem eraseKey_append {β : Type} (l1 l2 : List (String × β)) (key : String) :
    eraseKey (l1 ++ l2) key = eraseKey l1 key ++ eraseKey l2 key := by
  simp [eraseKey, List.filter_append]

/-- Lookup skips a first block that misses the key. -/
theorem lookupAssoc_append_right {β : Type} (l1 l2 : List (String × β)) (key : String)
    (h : lookupAssoc l1 key = none) :
    lookupAssoc (l1 ++ l2) key = lookupAssoc l2 key := by
  induction l1 with
  | nil => rfl
  | cons p rest ih =>
      obtain ⟨k, v⟩ := p
      by_cases hk : k = key
      · subst hk; simp [lookupAssoc] at h
      · have h' : lookupAssoc rest key = none := by simpa [lookupAssoc, hk] using h
        show lookupAssoc ((k, v) :: (rest ++ l2)) key = lookupAssoc l2 key
        simp only [lookupAssoc, if_neg hk]
        exact ih h'

/-- An erased list never resolves the erased key. -/
theorem lookupAssoc_eraseKey_self {β : Type} (l : List (String × β)) (key : String) :
    lookupAssoc (eraseKey l key) key = none := by
  rw [lookupAssoc_eq_none_iff]
  intro p hp
  exact ((mem_eraseKey l key p).1 hp).2

/-- Looking up the re-inserted key after an erase finds the new value. -/
theorem lookupAssoc_eraseKey_append {β : Type} (l : List (String × β)) (key : String) (v : β) :
    lookupAssoc (eraseKey l key ++ [(key, v)]) key = some v := by
  rw [lookupAssoc_append_right _ _ _ (lookupAssoc_eraseKey_self l key)]
  simp [lookupAssoc]

/-- Dict assignment of an absent key appends. -/
theorem insertAssoc_of_lookup_none {β : Type} (l : List (String × β)) (key : String) (v : β)
    (h : lookupAssoc l key = none) : insertAssoc l key v = l ++ [(key, v)] := by
  induction l with
  | nil => rfl
  | cons p rest ih =>
      obtain ⟨k, w⟩ := p
      by_cases hk : k = key
      · subst hk; simp [lookupAssoc] at h
      · simp only [insertAssoc, if_neg hk, List.cons_append, List.cons.injEq, true_and]
        exact ih (by simpa [lookupAssoc, hk] using h)

/-- Length of a token range. -/
theorem tokRange_length (b n : Nat) : (tokRange b n).length = n := by
  induction n generalizing b with
  | zero => rfl
  | succ n ih => simp [tokRange, ih]

/-- Membership in a token range is an interval condition. -/
theorem mem_tokRange {t b n : Nat} : t ∈ tokRange b n ↔ b ≤ t ∧ t < b + n := by
  induction n generalizing b with
  | zero => simp [tokRange]
  | succ n ih =>
      simp [tokRange, ih]
      omega

/-- Token ranges have no duplicates. -/
theorem tokRange_nodup (b n : Nat) : (tokRange b n).Nodup := by
  induction n generalizing b with
  | zero => simp [tokRange]
  | succ n ih =>
      simp only [tokRange, List.nodup_cons]
      exact ⟨fun h => by have := mem_tokRange.1 h; omega, ih (b + 1)⟩

/-- Cancellation leaves the heap untouched (cancellation never mutates heap
structure). -/
theorem cancelInternal_heap (s : SchedState) (id : String) :
    (cancelInternal s id).1.heap = s.heap := by
  rcases h : lookupAssoc s.events_by_id id with _ | toks <;> simp [cancelInternal, h]

/-- Cancellation leaves the fresh-token counter untouched. -/
theorem cancelInternal_nextTok (s : SchedState) (id : String) :
    (cancelInternal s id).1.nextTok = s.nextTok := by
  rcases h : lookupAssoc s.events_by_id id with _ | toks <;> simp [cancelInternal, h]

/-- Cancellation drops exactly the entry of the cancelled id. -/
theorem cancelInternal_events (s : SchedState) (id : String) :
    (cancelInternal s id).1.events_by_id = eraseKey s.events_by_id id := by
  rcases h : lookupAssoc s.events_by_id id with _ | toks
  · simp [cancelInternal, h, eraseKey_of_lookup_none _ _ h]
  · simp [cancelInternal, h]

/-- The boolean returned by `_cancel_internal` is group existence. -/
theorem cancelInternal_snd (s : SchedState) (id : String) :
    (cancelInternal s id).2 = (lookupAssoc s.events_by_id id).isSome := by
  rcases h : lookupAssoc s.events_by_id id with _ | toks <;> simp [cancelInternal, h]

/-- Store contents after a cancellation that found a group. -/
theorem cancelInternal_store_some (s : SchedState) (id : String) (toks : List Nat)
    (h : lookupAssoc s.events_by_id id = some toks) (t : Nat) :
    (cancelInternal s id).1.store t =
      if t ∈ toks then { s.store t with cancelled := true } else s.store t := by
  simp [cancelInternal, h]

/-- Store contents after a cancellation that found no group. -/
theorem cancelInternal_store_none (s : SchedState) (id : String)
    (h : lookupAssoc s.events_by_id id = none) :
    (cancelInternal s id).1.store = s.store := by
  simp [cancelInternal, h]

/-- Pushing events does not touch the index. -/
theorem addEvents_events_by_id (now : ℚ) (id m : String) (ds : List Int) :
    ∀ s, (addEvents now id m ds s).1.events_by_id = s.events_by_id := by
  induction ds with
  | nil => intro s; rfl
  | cons d ds ih => intro s; simp [addEvents, ih]

/-- Each pushed event consumes one fresh token. -/
theorem addEvents_nextTok (now : ℚ) (id m : String) (ds : List Int) :
    ∀ s, (addEvents now id m ds s).1.nextTok = s.nextTok + ds.length := by
  induction ds with
  | nil => intro s; simp [addEvents]
  | cons d ds ih =>
      intro s
      simp only [addEvents, ih, List.length_cons]
      omega

/-- The heap grows by exactly the freshly allocated token range. -/
theorem addEvents_heap (now : ℚ) (id m : String) (ds : List Int) :
    ∀ s, (addEvents now id m ds s).1.heap = s.heap ++ tokRange s.nextTok ds.length := by
  induction ds with
  | nil => intro s; simp [addEvents, tokRange]
  | cons d ds ih =>
      intro s
      simp [addEvents, ih, tokRange, List.append_assoc]

/-- The accumulated `events` list is the fresh token range. -/
theorem addEvents_toks (now : ℚ) (id m : String) (ds : List Int) :
    ∀ s, (addEvents now id m ds s).2 = tokRange s.nextTok ds.length := by
  induction ds with
  | nil => intro s; rfl
  | cons d ds ih => intro s; simp [addEvents, ih, tokRange]

/-- Pre-existing events are untouched by the pushes. -/
theorem addEvents_store_old (now : ℚ) (id m : String) (ds : List Int) :
    ∀ s t, t < s.nextTok → (addEvents now id m ds s).1.store t = s.store t := by
  induction ds with
  | nil => intro s t _; rfl
  | cons d ds ih =>
      intro s t ht
      simp only [addEvents]
      rw [ih _ t (by simpa using Nat.lt_succ_of_lt ht)]
      exact Function.update_noteq (Nat.ne_of_lt ht) _ _

/-- The event stored at the i-th fresh token is the event built for the i-th
delay. -/
theorem addEvents_store_new (now : ℚ) (id m : String) (ds : List Int) :
    ∀ s i, i < ds.length →
      (addEvents now id m ds s).1.store (s.nextTok + i) = mkEvent now id m (ds.getD i 0) := by
  induction ds with
  | nil => intro s i hi; cases hi
  | cons d ds ih =>
      intro s i hi
      match i with
      | 0 =>
          simp only [addEvents, Nat.add_zero]
          rw [addEvents_store_old now id m ds _ s.nextTok (by simp)]
          simp [Function.update_same]
      | Nat.succ j =>
          simp only [addEvents]
          have h1 : s.nextTok + (j + 1) = (s.nextTok + 1) + j := by omega
          rw [h1]
          exact ih _ j (by simpa using Nat.lt_of_succ_lt_succ hi)

/-- After `add`, the index is the old one with the id's entry removed and the
new group appended at the end. -/
theorem schedAdd_events_by_id (s : SchedState) (now : ℚ) (id m : String) (ds : List Int) :
    (schedAdd s now id m ds).events_by_id =
      eraseKey s.events_by_id id ++ [(id, tokRange s.nextTok ds.length)] := by
  simp only [schedAdd]
  rw [addEvents_toks, addEvents_events_by_id, cancelInternal_events, cancelInternal_nextTok,
    insertAssoc_of_lookup_none _ _ _ (lookupAssoc_eraseKey_self _ _)]

/-- After `add`, the heap is the old heap plus the new group's tokens. -/
theorem schedAdd_heap (s : SchedState) (now : ℚ) (id m : String) (ds : List Int) :
    (schedAdd s now id m ds).heap = s.heap ++ tokRange s.nextTok ds.length := by
  simp only [schedAdd]
  rw [addEvents_heap, cancelInternal_heap, cancelInternal_nextTok]

/-- `add` advances the fresh counter by the number of delays. -/
theorem schedAdd_nextTok (s : SchedState) (now : ℚ) (id m : String) (ds : List Int) :
    (schedAdd s now id m ds).nextTok = s.nextTok + ds.length := by
  simp only [schedAdd]
  rw [addEvents_nextTok, cancelInternal_nextTok]

/-- The i-th new event of an `add`. -/
theorem schedAdd_store_new (s : SchedState) (now : ℚ) (id m : String) (ds : List Int)
    (i : Nat) (hi : i < ds.length) :
    (schedAdd s now id m ds).store (s.nextTok + i) = mkEvent now id m (ds.getD i 0) := by
  simp only [schedAdd]
  rw [← cancelInternal_nextTok s id]
  exact addEvents_store_new now id m ds _ i hi

/-- Old events after an `add`: exactly what the embedded cancellation left. -/
theorem schedAdd_store_old (s : SchedState) (now : ℚ) (id m : String) (ds : List Int)
    (t : Nat) (ht : t < s.nextTok) :
    (schedAdd s now id m ds).store t = (cancelInternal s id).1.store t := by
  simp only [schedAdd]
  exact addEvents_store_old now id m ds _ t (by rwa [cancelInternal_nextTok])

/-- Boolean heap membership agrees with list membership. -/
theorem contains_true_iff (l : List Nat) (t : Nat) : l.contains t = true ↔ t ∈ l := by
  simp [List.contains]

/-- A status record carries the id of the index entry it summarises. -/
theorem entrySummary_fst (s : SchedState) (now : ℚ) (p : String × List Nat)
    (e : String × String × Nat × ℚ) (h : entrySummary s now p = some e) : e.1 = p.1 := by
  simp only [entrySummary] at h
  rcases hl : p.2.filter (fun t => !(s.store t).cancelled && s.heap.contains t) with _ | ⟨t0, rest⟩
  · rw [hl] at h; cases h
  · rw [hl] at h; cases h; rfl

/-- A group of delays has no live events exactly when it is empty, seen
through any projection of the freshly stored events. -/
theorem map_store_tokRange {α : Type} (s' : SchedState) (now : ℚ) (id m : String)
    (g : ScheduledEvent → α) (ds : List Int) :
    ∀ b, (∀ i, i < ds.length → s'.store (b + i) = mkEvent now id m (ds.getD i 0)) →
      (tokRange b ds.length).map (fun t => g (s'.store t)) =
        ds.map (fun x => g (mkEvent now id m x)) := by
  induction ds with
  | nil => intro b _; rfl
  | cons d ds ih =>
      intro b hstore
      simp only [List.length_cons, tokRange, List.map_cons]
      have h0 : s'.store b = mkEvent now id m d := by
        have h := hstore 0 (by simp)
        simpa using h
      rw [h0]
      congr 1
      refine ih (b + 1) (fun i hi => ?_)
      have h := hstore (i + 1) (by simpa using Nat.succ_lt_succ hi)
      rw [show b + (i + 1) = (b + 1) + i from by omega] at h
      simpa using h

/-- Every token of a fresh group passes the liveness filter of `status`. -/
theorem filter_tokRange_fresh (s' : SchedState) (now : ℚ) (id m : String) (ds : List Int)
    (b : Nat)
    (hstore : ∀ i, i < ds.length → s'.store (b + i) = mkEvent now id m (ds.getD i 0))
    (hheap : ∀ i, i < ds.length → (b + i) ∈ s'.heap) :
    (tokRange b ds.length).filter (fun t => !(s'.store t).cancelled && s'.heap.contains t) =
      tokRange b ds.length := by
  refine List.filter_eq_self.mpr (fun t ht => ?_)
  have hmem := mem_tokRange.1 ht
  have hi : t = b + (t - b) := by omega
  have hlt : t - b < ds.length := by omega
  rw [hi]
  rw [hstore _ hlt]
  simp only [mkEvent, Bool.not_false, Bool.true_and]
  exact (contains_true_iff _ _).2 (hi ▸ hheap _ hlt)

/-- The status record of a freshly added group. -/
theorem entrySummary_fresh (s' : SchedState) (now now2 : ℚ) (id m : String) (ds : List Int)
    (b : Nat)
    (hstore : ∀ i, i < ds.length → s'.store (b + i) = mkEvent now id m (ds.getD i 0))
    (hheap : ∀ i, i < ds.length → (b + i) ∈ s'.heap) :
    entrySummary s' now2 (id, tokRange b ds.length) = newGroupSummary now now2 id m ds := by
  cases ds with
  | nil => rfl
  | cons d ds =>
      simp only [entrySummary]
      rw [filter_tokRange_fresh s' now id m (d :: ds) b hstore hheap]
      simp only [List.length_cons, tokRange]
      have h0 : s'.store b = mkEvent now id m d := by
        have h := hstore 0 (by simp)
        simpa using h
      have hmap : (tokRange (b + 1) ds.length).map (fun t => (s'.store t).fire_time) =
          ds.map (fun x : Int => now + x) := by
        have := map_store_tokRange s' now id m (fun e => e.fire_time) ds (b + 1)
          (fun i hi => by
            have h := hstore (i + 1) (by simpa using Nat.succ_lt_succ hi)
            rw [show b + (i + 1) = (b + 1) + i from by omega] at h
            simpa using h)
        simpa [mkEvent] using this
      rw [h0, hmap]
      simp [newGroupSummary, mkEvent, tokRange_length]

/-- Helper facts about the new group installed by an `add`: store contents
and heap membership of its tokens. -/
theorem schedAdd_fresh_facts (s : SchedState) (now : ℚ) (id m : String) (ds : List Int) :
    (∀ i, i < ds.length →
      (schedAdd s now id m ds).store (s.nextTok + i) = mkEvent now id m (ds.getD i 0)) ∧
    (∀ i, i < ds.length → (s.nextTok + i) ∈ (schedAdd s now id m ds).heap) := by
  refine ⟨fun i hi => schedAdd_store_new s now id m ds i hi, fun i hi => ?_⟩
  rw [schedAdd_heap]
  exact List.mem_append_right _ (mem_tokRange.2 ⟨Nat.le_add_right _ _, by omega⟩)

/-- The status view after an `add` splits into the untouched entries and the
record of the fresh group. -/
theorem statusList_schedAdd (s : SchedState) (now now2 : ℚ) (id m : String) (ds : List Int) :
    statusList (schedAdd s now id m ds) now2 =
      (eraseKey s.events_by_id id).filterMap (entrySummary (schedAdd s now id m ds) now2)
        ++ (newGroupSummary now now2 id m ds).toList := by
  rw [statusList, schedAdd_events_by_id, List.filterMap_append]
  congr 1
  rw [List.filterMap_cons]
  obtain ⟨hstore, hheap⟩ := schedAdd_fresh_facts s now id m ds
  rw [entrySummary_fresh _ now now2 id m ds s.nextTok hstore hheap]
  cases newGroupSummary now now2 id m ds <;> rfl

/-- C4: every `add(id, message, delays)` creates exactly one event per delay,
with `fire_time = now + d` and priority `PRIORITIES d` (60 maps to 0, 3600 to
2, every other delay to 0), and every created event is pushed onto the heap
and indexed under the id. -/
theorem schedAdd_creates_events (s : SchedState) (now : ℚ) (id m : String) (ds : List Int) :
    lookupAssoc (schedAdd s now id m ds).events_by_id id = some (tokRange s.nextTok ds.length) ∧
    (tokRange s.nextTok ds.length).length = ds.length ∧
    (∀ t ∈ tokRange s.nextTok ds.length, t ∈ (schedAdd s now id m ds).heap) ∧
    (∀ i, i < ds.length →
      (schedAdd s now id m ds).store (s.nextTok + i) =
        { fire_time := now + (ds.getD i 0 : Int)
          escalation_id := id
          message := m
          priority := PRIORITIES (ds.getD i 0)
          cancelled := false }) := by
  refine ⟨?_, tokRange_length _ _, ?_, fun i hi => schedAdd_store_new s now id m ds i hi⟩
  · rw [schedAdd_events_by_id]
    exact lookupAssoc_eraseKey_append _ _ _
  · intro t ht
    rw [schedAdd_heap]
    exact List.mem_append_right _ ht

/-- Witness for `schedAdd_creates_events` at a concrete input: the first
event of `add("a", "m", [60, 5])` issued at time 0. -/
theorem schedAdd_creates_events_witness :
    (0 : Nat) < ([60, 5] : List Int).length ∧
      (schedAdd initSched 0 "a" "m" [60, 5]).store (initSched.nextTok + 0) =
        { fire_time := (0 : ℚ) + (([60, 5] : List Int).getD 0 0 : Int)
          escalation_id := "a"
          message := "m"
          priority := PRIORITIES (([60, 5] : List Int).getD 0 0)
          cancelled := false } :=
  ⟨by decide, (schedAdd_creates_events initSched 0 "a" "m" [60, 5]).2.2.2 0 (by decide)⟩

/-- C10: `add(id, m, [])` installs the id in the index with an empty event
list and pushes nothing onto the heap, so an immediately following
`cancel(id)` returns true while `status()` never lists the id. -/
theorem addEmptyDelays (s : SchedState) (now now2 : ℚ) (id m : String) :
    lookupAssoc (schedAdd s now id m []).events_by_id id = some [] ∧
    (schedAdd s now id m []).heap = s.heap ∧
    (schedCancel (schedAdd s now id m []) id).2 = true ∧
    ∀ e ∈ statusList (schedAdd s now id m []) now2, e.1 ≠ id := by
  have hlook : lookupAssoc (schedAdd s now id m []).events_by_id id = some [] := by
    rw [schedAdd_events_by_id]
    exact lookupAssoc_eraseKey_append _ _ _
  refine ⟨hlook, ?_, ?_, ?_⟩
  · rw [schedAdd_heap]; simp [tokRange]
  · rw [schedCancel, cancelInternal_snd, hlook]; rfl
  · intro e he
    rw [statusList_schedAdd] at he
    rcases List.mem_append.1 he with h1 | h2
    · rcases List.mem_filterMap.1 h1 with ⟨p, hp, hpe⟩
      rw [entrySummary_fst _ _ _ _ hpe]
      exact ((mem_eraseKey _ _ _).1 hp).2
    · cases h2

/-- Witness for `addEmptyDelays`: concrete empty-delays `add` followed by a
successful `cancel` and an empty status view. -/
theorem addEmptyDelays_witness :
    lookupAssoc (schedAdd initSched 0 "x" "m" []).events_by_id "x" = some [] ∧
      (schedCancel (schedAdd initSched 0 "x" "m" []) "x").2 = true :=
  ⟨(addEmptyDelays initSched 0 0 "x" "m").1, (addEmptyDelays initSched 0 0 "x" "m").2.2.1⟩

/-- The running minimum of `now + d` over shifted delays is `now` plus the
minimum delay. -/
theorem listMinQ_add (now : ℚ) : ∀ (ds : List Int) (d : Int),
    listMinQ (now + d) (ds.map (fun x : Int => now + x)) = now + ((ds.foldl min d : Int) : ℚ) := by
  intro ds
  induction ds with
  | nil => intro d; rfl
  | cons x ds ih =>
      intro d
      simp only [List.map_cons, listMinQ, List.foldl_cons]
      rw [← ih (min d x)]
      congr 1
      rw [Int.cast_min]
      exact min_add_add_left now _ _

/-- A fold of `min` over nonnegative integers stays nonnegative. -/
theorem foldl_min_nonneg : ∀ (l : List Int) (a : Int), 0 ≤ a → (∀ x ∈ l, 0 ≤ x) →
    0 ≤ l.foldl min a := by
  intro l
  induction l with
  | nil => intro a ha _; exact ha
  | cons x l ih =>
      intro a ha hl
      simp only [List.foldl_cons]
      exact ih _ (le_min ha (hl x (by simp))) (fun y hy => hl y (by simp [hy]))

/-- C5 counterexample. With a negative delay the clamped `next_fire_in` of
the fresh group is 0, which exceeds `min(ds) = -1`: the claimed bound
`next_fire_in ≤ min(ds)` fails as stated. -/
theorem addThenStatus_negdelay_cx :
    statusList (schedAdd initSched 0 "a" "m" [-1]) 0 = [("a", "m", 1, 0)] ∧
      ¬ ((0 : ℚ) ≤ ((intMin [-1] : Int) : ℚ)) := by
  constructor
  · rw [statusList_schedAdd]
    have h2 : newGroupSummary 0 0 "a" "m" [-1] = some ("a", "m", 1, 0) := by
      norm_num [newGroupSummary, listMinQ, max_def]
    rw [h2]
    rfl
  · norm_num [intMin]

/-- C5 (amended): for nonnegative delays, an `add(id, m, ds)` immediately
followed by `status()` (the clock not having moved backwards) reports the
group for `id` with `pending_count = len(ds)` and `next_fire_in ≤ min(ds)`;
for empty `ds` no events are created and `status()` does not list the id.
(The nonnegativity proviso is forced: `next_fire_in` is clamped at zero, so
a negative minimum delay makes the bound fail.) -/
theorem addThenStatusView (s : SchedState) (now now2 : ℚ) (id m : String) (ds : List Int)
    (hnn : ∀ d ∈ ds, 0 ≤ d) (ht : now ≤ now2) :
    (ds ≠ [] →
      (∃ e ∈ statusList (schedAdd s now id m ds) now2, e.1 = id) ∧
      ∀ e ∈ statusList (schedAdd s now id m ds) now2, e.1 = id →
        e.2.2.1 = ds.length ∧ e.2.2.2 ≤ ((intMin ds : Int) : ℚ)) ∧
    (ds = [] →
      (schedAdd s now id m ds).heap = s.heap ∧
      ∀ e ∈ statusList (schedAdd s now id m ds) now2, e.1 ≠ id) := by
  constructor
  · intro hne
    match ds, hne with
    | d :: ds', _ =>
      have hsum : newGroupSummary now now2 id m (d :: ds') =
          some (id, m, ds'.length + 1,
            max 0 (listMinQ (now + d) (ds'.map (fun x : Int => now + x)) - now2)) := rfl
      constructor
      · refine ⟨(id, m, ds'.length + 1,
          max 0 (listMinQ (now + d) (ds'.map (fun x : Int => now + x)) - now2)), ?_, rfl⟩
        rw [statusList_schedAdd]
        refine List.mem_append_right _ ?_
        rw [hsum]
        simp
      · intro e he heid
        rw [statusList_schedAdd] at he
        rcases List.mem_append.1 he with h1 | h2
        · exfalso
          rcases List.mem_filterMap.1 h1 with ⟨p, hp, hpe⟩
          have := entrySummary_fst _ _ _ _ hpe
          rw [heid] at this
          exact ((mem_eraseKey _ _ _).1 hp).2 this.symm
        · rw [hsum] at h2
          simp only [Option.toList_some, List.mem_singleton] at h2
          subst h2
          refine ⟨by simp, ?_⟩
          show max 0 (listMinQ (now + d) (ds'.map (fun x : Int => now + x)) - now2) ≤ _
          rw [listMinQ_add]
          have hmin : (0 : Int) ≤ ds'.foldl min d :=
            foldl_min_nonneg ds' d (hnn d (by simp)) (fun x hx => hnn x (by simp [hx]))
          have hcast : (0 : ℚ) ≤ ((ds'.foldl min d : Int) : ℚ) := by exact_mod_cast hmin
          have : ((intMin (d :: ds') : Int) : ℚ) = ((ds'.foldl min d : Int) : ℚ) := rfl
          rw [this]
          refine max_le hcast ?_
          linarith
  · intro h
    subst h
    constructor
    · rw [schedAdd_heap]; simp [tokRange]
    · intro e he
      rw [statusList_schedAdd] at he
      rcases List.mem_append.1 he with h1 | h2
      · rcases List.mem_filterMap.1 h1 with ⟨p, hp, hpe⟩
        rw [entrySummary_fst _ _ _ _ hpe]
        exact ((mem_eraseKey _ _ _).1 hp).2
      · cases h2

/-- Witness for `addThenStatusView`: `add("a","m",[60,3600])` at time 0 and
an immediate `status()` report the group with 2 pending events and next fire
within 60 seconds. -/
theorem addThenStatusView_witness :
    ("a", "m", 2, (60 : ℚ)) ∈ statusList (schedAdd initSched 0 "a" "m" [60, 3600]) 0 ∧
      (("a", "m", 2, (60 : ℚ)).2.2.1 = ([60, 3600] : List Int).length ∧
        ("a", "m", 2, (60 : ℚ)).2.2.2 ≤ ((intMin [60, 3600] : Int) : ℚ)) := by
  have hmem : ("a", "m", 2, (60 : ℚ)) ∈ statusList (schedAdd initSched 0 "a" "m" [60, 3600]) 0 := by
    rw [statusList_schedAdd]
    have hg : newGroupSummary 0 0 "a" "m" [60, 3600] = some ("a", "m", 2, (60 : ℚ)) := by
      norm_num [newGroupSummary, listMinQ, max_def, min_def]
    rw [hg]
    simp
  have h := ((addThenStatusView initSched 0 0 "a" "m" [60, 3600]
    (by decide) (le_refl 0)).1 (by decide)).2
  exact ⟨hmem, h _ hmem rfl⟩

/-- Appending tokens that do not include `a` leaves heap membership tests
unchanged. -/
theorem contains_append_of_not_mem_right (l1 l2 : List Nat) (a : Nat) (h : a ∉ l2) :
    (l1 ++ l2).contains a = l1.contains a := by
  simp [List.contains]
  exact fun hm => absurd hm h

/-- Two states that agree on an entry's events (store value and heap
membership) produce the same status record for it. -/
theorem entrySummary_congr (s s' : SchedState) (now : ℚ) (p : String × List Nat)
    (hstore : ∀ t ∈ p.2, s'.store t = s.store t)
    (hheap : ∀ t ∈ p.2, s'.heap.contains t = s.heap.contains t) :
    entrySummary s' now p = entrySummary s now p := by
  simp only [entrySummary]
  have hfilter : p.2.filter (fun t => !(s'.store t).cancelled && s'.heap.contains t)
      = p.2.filter (fun t => !(s.store t).cancelled && s.heap.contains t) :=
    List.filter_congr (fun t ht => by rw [hstore t ht, hheap t ht])
  rw [hfilter]
  rcases hl : p.2.filter (fun t => !(s.store t).cancelled && s.heap.contains t)
      with _ | ⟨t0, rest⟩
  · rfl
  · have hsub : ∀ t ∈ t0 :: rest, t ∈ p.2 := by
      intro t ht'
      rw [← hl] at ht'
      exact List.mem_of_mem_filter ht'
    have hmap : rest.map (fun t => (s'.store t).fire_time)
        = rest.map (fun t => (s.store t).fire_time) :=
      List.map_congr_left (fun t ht' => by rw [hstore t (hsub t (by simp [ht']))])
    show some (p.1, (s'.store t0).message, (t0 :: rest).length,
        max 0 (listMinQ (s'.store t0).fire_time (rest.map (fun t => (s'.store t).fire_time)) - now)) =
      some (p.1, (s.store t0).message, (t0 :: rest).length,
        max 0 (listMinQ (s.store t0).fire_time (rest.map (fun t => (s.store t).fire_time)) - now))
    rw [hstore t0 (hsub t0 (by simp)), hmap]

/-- C2: at most one active group per id.  A second `add` for the same id
flags every event of the prior group cancelled, installs a disjoint fresh
group as the only index entry for the id, and the status view after
`add; add` equals the status view after a single `add`. -/
theorem readd_idempotent_status (s : SchedState) (hWF : WF s) (now now2 : ℚ)
    (id m : String) (ds : List Int) :
    (∀ t ∈ tokRange s.nextTok ds.length,
        ((schedAdd (schedAdd s now id m ds) now id m ds).store t).cancelled = true ∧
        t ∉ tokRange (schedAdd s now id m ds).nextTok ds.length) ∧
    lookupAssoc (schedAdd (schedAdd s now id m ds) now id m ds).events_by_id id
      = some (tokRange (schedAdd s now id m ds).nextTok ds.length) ∧
    statusList (schedAdd (schedAdd s now id m ds) now id m ds) now2
      = statusList (schedAdd s now id m ds) now2 := by
  have hlook1 : lookupAssoc (schedAdd s now id m ds).events_by_id id
      = some (tokRange s.nextTok ds.length) := by
    rw [schedAdd_events_by_id]
    exact lookupAssoc_eraseKey_append _ _ _
  have hE2 : eraseKey (schedAdd s now id m ds).events_by_id id = eraseKey s.events_by_id id := by
    rw [schedAdd_events_by_id, eraseKey_append]
    have h1 : eraseKey [(id, tokRange s.nextTok ds.length)] id = [] := by simp [eraseKey]
    rw [h1, List.append_nil]
    exact eraseKey_of_lookup_none _ _ (lookupAssoc_eraseKey_self _ _)
  have hstore2_old : ∀ t, t < (schedAdd s now id m ds).nextTok →
      (schedAdd (schedAdd s now id m ds) now id m ds).store t =
        if t ∈ tokRange s.nextTok ds.length
        then { (schedAdd s now id m ds).store t with cancelled := true }
        else (schedAdd s now id m ds).store t := by
    intro t ht
    rw [schedAdd_store_old _ now id m ds t ht]
    exact cancelInternal_store_some _ id _ hlook1 t
  refine ⟨?_, ?_, ?_⟩
  · intro t htT1
    have htn : t < s.nextTok + ds.length := (mem_tokRange.1 htT1).2
    constructor
    · rw [hstore2_old t (by rw [schedAdd_nextTok]; exact htn), if_pos htT1]
    · intro hmem
      have h2 := mem_tokRange.1 hmem
      rw [schedAdd_nextTok] at h2
      omega
  · rw [schedAdd_events_by_id (schedAdd s now id m ds)]
    exact lookupAssoc_eraseKey_append _ _ _
  · rw [statusList_schedAdd s now now2 id m ds,
      statusList_schedAdd (schedAdd s now id m ds) now now2 id m ds, hE2]
    congr 1
    refine List.filterMap_congr (fun p hp => ?_)
    have hpE : p ∈ s.events_by_id := ((mem_eraseKey _ _ _).1 hp).1
    have htok : ∀ t ∈ p.2, t < s.nextTok := fun t ht => hWF.2.1 p hpE t ht
    refine entrySummary_congr _ _ now2 p (fun t ht => ?_) (fun t ht => ?_)
    · have htn := htok t ht
      rw [hstore2_old t (by rw [schedAdd_nextTok]; omega)]
      rw [if_neg (fun hm => by have := (mem_tokRange.1 hm).1; omega)]
    · have htn := htok t ht
      rw [schedAdd_heap (schedAdd s now id m ds)]
      refine contains_append_of_not_mem_right _ _ _ (fun hm => ?_)
      have h2 := (mem_tokRange.1 hm).1
      rw [schedAdd_nextTok] at h2
      omega

/-- Witness for `readd_idempotent_status`: a double `add` on the empty
scheduler yields the same status view as a single one, and the first group's
event is flagged cancelled. -/
theorem readd_idempotent_status_witness :
    statusList (schedAdd (schedAdd initSched 0 "a" "m" [60]) 0 "a" "m" [60]) 5
      = statusList (schedAdd initSched 0 "a" "m" [60]) 5 ∧
    ((schedAdd (schedAdd initSched 0 "a" "m" [60]) 0 "a" "m" [60]).store 0).cancelled = true := by
  have hWF0 : WF initSched := by
    refine ⟨?_, ?_, ?_⟩ <;> simp [initSched, WF]
  have h := readd_idempotent_status initSched hWF0 0 5 "a" "m" [60]
  refine ⟨h.2.2, ?_⟩
  exact (h.1 0 (by simp [tokRange, initSched])).1

/-- Cleanup of an index entry never touches the heap. -/
theorem cleanupFiredEvents_heap (s : SchedState) (id : String) :
    (cleanupFiredEvents s id).heap = s.heap := by
  rcases h : lookupAssoc s.events_by_id id with _ | toks
  · simp [cleanupFiredEvents, h]
  · simp only [cleanupFiredEvents, h]
    split <;> rfl

/-- Cleanup of an index entry never touches the event store. -/
theorem cleanupFiredEvents_store (s : SchedState) (id : String) :
    (cleanupFiredEvents s id).store = s.store := by
  rcases h : lookupAssoc s.events_by_id id with _ | toks
  · simp [cleanupFiredEvents, h]
  · simp only [cleanupFiredEvents, h]
    split <;> rfl

/-- The lazy-reclamation loop only removes heap elements. -/
theorem popCancelledAux_sublist (f : Nat → ScheduledEvent) :
    ∀ (n : Nat) (h : List Nat), List.Sublist (popCancelledAux f n h) h := by
  intro n
  induction n with
  | zero => intro h; exact List.Sublist.refl h
  | succ n ih =>
      intro h
      simp only [popCancelledAux]
      rcases htop : heapTop f h with _ | t
      · exact List.Sublist.refl h
      · show List.Sublist (if (f t).cancelled = true then popCancelledAux f n (h.erase t) else h) h
        by_cases hc : (f t).cancelled = true
        · rw [if_pos hc]
          exact List.Sublist.trans (ih (h.erase t)) (List.erase_sublist t h)
        · rw [if_neg hc]

/-- The heap top is a heap element. -/
theorem heapTop_mem (f : Nat → ScheduledEvent) :
    ∀ (h : List Nat) (t : Nat), heapTop f h = some t → t ∈ h := by
  intro h
  induction h with
  | nil => intro t ht; cases ht
  | cons x rest ih =>
      intro t ht
      simp only [heapTop] at ht
      rcases hr : heapTop f rest with _ | u
      · rw [hr] at ht
        injection ht with h2
        subst h2
        exact List.mem_cons_self _ _
      · rw [hr] at ht
        have ht2 : (if (f x).fire_time ≤ (f u).fire_time then some x else some u) = some t := ht
        by_cases hle : (f x).fire_time ≤ (f u).fire_time
        · rw [if_pos hle] at ht2
          injection ht2 with h2
          subst h2
          exact List.mem_cons_self _ _
        · rw [if_neg hle] at ht2
          injection ht2 with h2
          subst h2
          exact List.mem_cons_of_mem _ (ih u hr)

/-- A scheduler iteration never writes to the event store: cancellation flags
set before the iteration survive it. -/
theorem runStep_store (s : SchedState) (now : ℚ) : (runStep s now).1.store = s.store := by
  simp only [runStep]
  split
  · rfl
  · split
    · rfl
    · split <;> simp [cleanupFiredEvents_store, popCancelledTops]

/-- A scheduler iteration only removes heap elements. -/
theorem runStep_heap_sublist (s : SchedState) (now : ℚ) :
    List.Sublist (runStep s now).1.heap s.heap := by
  have hsub : List.Sublist (popCancelledTops s).heap s.heap := popCancelledAux_sublist _ _ _
  simp only [runStep]
  split
  · exact hsub
  · split
    · exact hsub
    · split <;>
        (simp only [cleanupFiredEvents_heap]
         exact List.Sublist.trans (List.erase_sublist _ _) hsub)

/-- Inversion of a firing iteration: the fired event was un-cancelled at the
post-pop check, its token was in the heap, the store is untouched, and the
token has been popped. -/
theorem runStep_fired_pair (s : SchedState) (now : ℚ) (s' : SchedState) (tok : Nat)
    (eid msg : String) (pr : Int) (h : runStep s now = (s', .fired tok eid msg pr)) :
    (s.store tok).cancelled = false ∧ tok ∈ s.heap ∧ s'.store = s.store ∧
      s'.heap = (popCancelledTops s).heap.erase tok := by
  simp only [runStep] at h
  split at h
  · simp at h
  · rename_i tok2 htop
    split at h
    · simp at h
    · rename_i hw
      split at h
      · simp at h
      · rename_i hc
        rw [Prod.mk.injEq] at h
        obtain ⟨hs', hr⟩ := h
        injection hr with h1 h2 h3 h4
        subst h1
        refine ⟨?_, ?_, ?_, ?_⟩
        · cases hb : (s.store tok2).cancelled
          · rfl
          · exact absurd hb hc
        · exact List.Sublist.subset (popCancelledAux_sublist _ _ _) (heapTop_mem _ _ _ htop)
        · rw [← hs', cleanupFiredEvents_store]
          rfl
        · rw [← hs', cleanupFiredEvents_heap]

/-- A boolean firing test decodes to a `fired` step for that token. -/
theorem firesTok_eq_true_iff (r : StepResult) (tok : Nat) :
    firesTok r tok = true ↔ ∃ eid msg pr, r = .fired tok eid msg pr := by
  cases r <;> simp [firesTok]

/-- A token absent from the heap never fires along a run: the loop never
re-inserts events. -/
theorem runTrace_no_fire_of_not_mem (tok : Nat) : ∀ (times : List ℚ) (s : SchedState),
    tok ∉ s.heap → ∀ r ∈ runTrace s times, firesTok r tok = false := by
  intro times
  induction times with
  | nil => intro s _ r hr; simp [runTrace] at hr
  | cons t ts ih =>
      intro s hmem r hr
      simp only [runTrace] at hr
      rcases List.mem_cons.1 hr with hr1 | hr2
      · subst hr1
        cases hf : firesTok (runStep s t).2 tok
        · rfl
        · exfalso
          rcases (firesTok_eq_true_iff _ _).1 hf with ⟨eid, msg, pr, hfe⟩
          have hpair : runStep s t = ((runStep s t).1, (runStep s t).2) := rfl
          rw [hfe] at hpair
          exact hmem (runStep_fired_pair s t _ tok eid msg pr hpair).2.1
      · exact ih (runStep s t).1
          (fun hm => hmem (List.Sublist.subset (runStep_heap_sublist s t) hm)) r hr2

/-- An event flagged cancelled before the run never fires: the flag is
inspected after every pop and nothing clears it. -/
theorem runTrace_no_fire_of_cancelled (tok : Nat) : ∀ (times : List ℚ) (s : SchedState),
    (s.store tok).cancelled = true → ∀ r ∈ runTrace s times, firesTok r tok = false := by
  intro times
  induction times with
  | nil => intro s _ r hr; simp [runTrace] at hr
  | cons t ts ih =>
      intro s hc r hr
      simp only [runTrace] at hr
      rcases List.mem_cons.1 hr with hr1 | hr2
      · subst hr1
        cases hf : firesTok (runStep s t).2 tok
        · rfl
        · exfalso
          rcases (firesTok_eq_true_iff _ _).1 hf with ⟨eid, msg, pr, hfe⟩
          have hpair : runStep s t = ((runStep s t).1, (runStep s t).2) := rfl
          rw [hfe] at hpair
          have := (runStep_fired_pair s t _ tok eid msg pr hpair).1
          rw [this] at hc
          cases hc
      · exact ih (runStep s t).1 (by rw [runStep_store]; exact hc) r hr2

/-- With a duplicate-free heap, each token fires at most once along a run. -/
theorem runTrace_countP_le_one (tok : Nat) : ∀ (times : List ℚ) (s : SchedState),
    s.heap.Nodup → (runTrace s times).countP (fun r => firesTok r tok) ≤ 1 := by
  intro times
  induction times with
  | nil => intro s _; simp [runTrace]
  | cons t ts ih =>
      intro s hnd
      simp only [runTrace, List.countP_cons]
      cases hf : firesTok (runStep s t).2 tok
      · have := ih (runStep s t).1 (List.Nodup.sublist (runStep_heap_sublist s t) hnd)
        simpa [hf] using this
      · rcases (firesTok_eq_true_iff _ _).1 hf with ⟨eid, msg, pr, hfe⟩
        have hpair : runStep s t = ((runStep s t).1, (runStep s t).2) := rfl
        rw [hfe] at hpair
        have hfacts := runStep_fired_pair s t _ tok eid msg pr hpair
        have hnd1 : (popCancelledTops s).heap.Nodup :=
          List.Nodup.sublist (popCancelledAux_sublist _ _ _) hnd
        have hnot : tok ∉ (runStep s t).1.heap := by
          rw [hfacts.2.2.2]
          intro hm
          exact ((List.Nodup.mem_erase_iff hnd1).1 hm).1 rfl
        have hz : (runTrace (runStep s t).1 ts).countP (fun r => firesTok r tok) = 0 :=
          List.countP_eq_zero.2 (fun r hr => by
            rw [runTrace_no_fire_of_not_mem tok ts (runStep s t).1 hnot r hr]
            simp)
        simp [hf, hz]

/-- C1: along any run of the scheduler loop, the notifier is invoked at most
once per event (heap tokens being unique); an event whose cancelled flag was
set before the run never fires, the flag being inspected after each pop and
never cleared; in particular after a completed `cancel(id)`, no event of that
id's group fires in the subsequent run. -/
theorem scheduler_fires_at_most_once (s : SchedState) (hnd : s.heap.Nodup) (times : List ℚ) :
    (∀ tok, (runTrace s times).countP (fun r => firesTok r tok) ≤ 1) ∧
    (∀ tok, (s.store tok).cancelled = true →
      ∀ r ∈ runTrace s times, firesTok r tok = false) ∧
    (∀ id toks, lookupAssoc s.events_by_id id = some toks →
      ∀ t ∈ toks, ∀ r ∈ runTrace (schedCancel s id).1 times, firesTok r t = false) := by
  refine ⟨fun tok => runTrace_countP_le_one tok times s hnd,
    fun tok hc => runTrace_no_fire_of_cancelled tok times s hc, ?_⟩
  intro id toks hlook t ht
  have hflag : (((schedCancel s id).1).store t).cancelled = true := by
    show (((cancelInternal s id).1).store t).cancelled = true
    rw [cancelInternal_store_some s id toks hlook t, if_pos ht]
  exact runTrace_no_fire_of_cancelled t times _ hflag

/-- Witness for `scheduler_fires_at_most_once`: a single scheduled event on
the empty scheduler fires at most once over a two-step run. -/
theorem scheduler_fires_at_most_once_witness :
    (runTrace (schedAdd initSched 0 "a" "m" [5]) [6, 7]).countP (fun r => firesTok r 0) ≤ 1 :=
  (scheduler_fires_at_most_once (schedAdd initSched 0 "a" "m" [5])
    (by rw [schedAdd_heap]; decide) [6, 7]).1 0

/-- C3 evaluation at the failing input: the 6-byte frame carrying the empty
JSON object `{}` is a well-formed request (valid prefix, within 1 MiB, valid
JSON object payload), yet the client handler sends no reply before closing:
the decoded empty dict is falsy under the `if msg:` guard. -/
theorem emptyObjRequest_no_reply :
    wellFormedRequest emptyObjRequest ∧
      handleClientResult initService 0 emptyObjRequest = none := by
  constructor
  · refine ⟨by decide, by decide, by decide, by decide⟩
  · rfl

/-- C7 evaluation at the failing input: `unregister_session` with an unknown
`session_id` on a one-session registry falls into the remove-oldest fallback;
the lone session is deleted, the reply says `status: ok` with
`session_count: 0`, and the daemon starts shutting down -- the registry is
not left unchanged. -/
theorem unregister_unknown_removes_oldest :
    oneSessionService.sessions.length = 1 ∧
      (handleCommand oneSessionService 100 unknownUnregisterCmd).map
          (fun r => r.2.sessions) = some [] ∧
      (handleCommand oneSessionService 100 unknownUnregisterCmd).map
          (fun r => lookupAssoc r.1 "session_count") = some (some (.pyInt 0)) ∧
      (handleCommand oneSessionService 100 unknownUnregisterCmd).map
          (fun r => lookupAssoc r.1 "status") = some (some (.pyStr "ok")) ∧
      (handleCommand oneSessionService 100 unknownUnregisterCmd).map
          (fun r => r.2.running) = some false := by
  refine ⟨rfl, ?_, ?_, ?_, ?_⟩ <;> rfl
